import Mathlib

/-!
Verification of the DVH pipeline in `src/Model/CalculateDVHs.py` (OnkoDICOM).

The file embeds the four components of that module as executable Lean
definitions and proves the spec's claims about them:

* `get_roi_info` — the ROI Catalog Extractor, a fold building a
  Python-style dictionary (insertion ordered, overwrite-in-place);
* `calc_dvhs` — the Parallel DVH Engine, modelled as the coordinator's
  aggregation loop over the arrival order of worker results, which is an
  arbitrary permutation of the requested ROI ids;
* `converge_to_zero_dvh` — the Histogram Normalizer; fallible array
  indexing (`counts[-1]` on an empty array) is modelled with `Except`;
* `dvh2csv` — the Tabular Exporter; the pandas DataFrame construction
  (its padding, `round(2)` and `fillna(0.0)`) is modelled explicitly, and
  the pandas `ValueError` raised when a data row is wider than the column
  list is a distinguished error value.

Dose values and counts are rationals (`ℚ`); numpy arrays are Lean lists.
-/

/-- Errors a call into this module can raise.  `indexError` is Python's
`IndexError` (out-of-range indexing such as `counts[-1]` on an empty
array); `valueError` is the pandas `ValueError` for mismatched column
counts; `malformedHistogramError` is the error class the spec asks an
implementation to raise on an empty histogram (no code in the module
raises it). -/
inductive PyError where
  | indexError
  | valueError
  | malformedHistogramError
deriving Repr, DecidableEq

/-- A DVH histogram as the Normalizer sees it: `bincenters` (x axis) and
`counts` (y values), both numpy arrays in the source. -/
structure Histogram where
  bincenters : List ℚ
  counts : List ℚ
deriving Repr, DecidableEq

deriving instance DecidableEq for Except

/-- Python `a[-1]`: the last element of an array, raising `IndexError`
when the array is empty. -/
def lastElem (a : List ℚ) : Except PyError ℚ :=
  match a.getLast? with
  | some c => Except.ok c
  | none => Except.error PyError.indexError

/-- The body of the Normalizer's per-ROI loop.  If the last count is not
zero, the source builds `tmp_bincenters = [bincenters[-1]+i for i in
range(3)]`, concatenates it onto `bincenters`, and concatenates three
zeros onto `counts`; otherwise it passes both arrays through. -/
def convergeHist (dvh : Histogram) : Except PyError Histogram :=
  match lastElem dvh.counts with
  | Except.error e => Except.error e
  | Except.ok c =>
      if c ≠ 0 then
        match lastElem dvh.bincenters with
        | Except.error e => Except.error e
        | Except.ok b =>
            Except.ok { bincenters := dvh.bincenters ++ [b, b + 1, b + 2],
                        counts := dvh.counts ++ [0, 0, 0] }
      else
        Except.ok { bincenters := dvh.bincenters, counts := dvh.counts }

/-- `converge_to_zero_dvh`: iterate the per-ROI body over the dictionary
in insertion order, building the result dictionary.  An `IndexError`
raised for one ROI aborts the whole call, as in Python. -/
def converge_to_zero_dvh : List (Nat × Histogram) → Except PyError (List (Nat × Histogram))
  | [] => Except.ok []
  | (roi, dvh) :: rest =>
      match convergeHist dvh with
      | Except.error e => Except.error e
      | Except.ok h =>
          match converge_to_zero_dvh rest with
          | Except.error e => Except.error e
          | Except.ok r => Except.ok ((roi, h) :: r)

example : converge_to_zero_dvh [(2, ⟨[0, 10], [2, 1]⟩)]
    = Except.ok [(2, ⟨[0, 10, 10, 11, 12], [2, 1, 0, 0, 0]⟩)] := by
  norm_num [converge_to_zero_dvh, convergeHist, lastElem]

example : converge_to_zero_dvh [(1, ⟨[0, 10, 20], [5, 3, 0]⟩)]
    = Except.ok [(1, ⟨[0, 10, 20], [5, 3, 0]⟩)] := by
  norm_num [converge_to_zero_dvh, convergeHist, lastElem]

example : converge_to_zero_dvh [(1, ⟨[], []⟩)]
    = Except.error PyError.indexError := by
  norm_num [converge_to_zero_dvh, convergeHist, lastElem]

/-! ## Python dictionaries

Insertion-ordered association lists.  `dictInsert` is Python's
`d[k] = v`: the value of an existing key is overwritten in place, a new
key is appended at the end.  `dictLookup` is `d[k]` / `d.get(k)`. -/

/-- `d[k] = v` on a Python dict. -/
def dictInsert {α : Type} : List (Nat × α) → Nat → α → List (Nat × α)
  | [], k, v => [(k, v)]
  | (a, b) :: t, k, v =>
      if a = k then (k, v) :: t else (a, b) :: dictInsert t k v

/-- `d.get(k)` on a Python dict. -/
def dictLookup {α : Type} : List (Nat × α) → Nat → Option α
  | [], _ => none
  | (a, b) :: t, k => if a = k then some b else dictLookup t k

/-! ## Parallel DVH Engine (`calc_dvhs`)

Each worker computes `{roi: get_dvh(rtss, dose, roi, dose_limit)}` and
deposits it in the queue.  Under fault-free deterministic computation
`get_dvh` is a function `compute : Nat → Histogram` of the ROI id alone
(the datasets and dose limit are fixed), every worker deposits exactly
one result, and the coordinator performs `len(roi_list)` blocking
`queue.get()` calls, so the sequence of results it receives is the
requested ROI id list in some arrival order — an arbitrary permutation
of it.  The coordinator folds `dict_dvh.update(dvh)` over that
sequence. -/

/-- The coordinator's aggregation loop of `calc_dvhs`, applied to the
arrival order of the worker results. -/
def calc_dvhs (compute : Nat → Histogram) (arrival : List Nat) :
    List (Nat × Histogram) :=
  arrival.foldl (fun d roi => dictInsert d roi (compute roi)) []

/-! ## ROI Catalog Extractor (`get_roi_info`) -/

/-- One element of `ds_rtss.StructureSetROISequence`. -/
structure StructureSetROI where
  ROINumber : Nat
  ReferencedFrameOfReferenceUID : String
  ROIName : String
  ROIGenerationAlgorithm : String
deriving Repr, DecidableEq

/-- One value of the dictionary built by `get_roi_info`:
`{'uid': ..., 'name': ..., 'algorithm': ...}`. -/
structure RoiInfo where
  uid : String
  name : String
  algorithm : String
deriving Repr, DecidableEq

/-- The `dict_temp` built for one sequence element. -/
def roiInfoOf (s : StructureSetROI) : RoiInfo :=
  { uid := s.ReferencedFrameOfReferenceUID,
    name := s.ROIName,
    algorithm := s.ROIGenerationAlgorithm }

/-- `get_roi_info`: fold `dict_roi[sequence.ROINumber] = dict_temp` over
the structure set's ROI sequence. -/
def get_roi_info (ds : List StructureSetROI) : List (Nat × RoiInfo) :=
  ds.foldl (fun d s => dictInsert d s.ROINumber (roiInfoOf s)) []

/-! ## Tabular Exporter (`dvh2csv`)

`dvh2csv` reads `dvh.name`, `dvh.volume` and
`dvh.relative_volume.counts` from each DVH object, samples the relative
volume at indices `0, 10, 20, ...`, tracks the largest sampled index
across the whole collection, builds the header, and hands the ragged
row list to pandas.  `pandas.DataFrame(rows, columns=header)` pads rows
shorter than the header with NaN and raises `ValueError` when a row is
longer; `.round(2)` rounds every numeric cell to two decimals
(half-to-even); `.fillna(0.0)` replaces the NaN padding with `0.0`.
Writing the file itself is outside the model: `dvh2csv` returns the
table that is written. -/

/-- The `relative_volume` view of a dvh object (only its `counts` is
read by the exporter). -/
structure RelativeVolume where
  counts : List ℚ
deriving Repr, DecidableEq

/-- The fields of a DVH object read by `dvh2csv`. -/
structure DVHData where
  name : String
  volume : ℚ
  relative_volume : RelativeVolume
deriving Repr, DecidableEq

/-- One cell of the exported table: patient id and ROI name are
strings, everything else is numeric. -/
inductive Cell where
  | str : String → Cell
  | num : ℚ → Cell
deriving Repr, DecidableEq

/-- The indices `range(0, L, 10)` at which a length-`L` counts array is
sampled. -/
def sampledIndices (L : Nat) : List Nat :=
  (List.range L).filter (fun i => i % 10 = 0)

/-- The running update of `max_roi_dose` performed while emitting one
ROI's row: `if i > max_roi_dose: max_roi_dose = i` for each sampled
index `i`. -/
def updateMaxDose (m : Nat) (dvh : DVHData) : Nat :=
  (sampledIndices dvh.relative_volume.counts.length).foldl max m

/-- The final value of `max_roi_dose` after the row-building loop. -/
def maxRoiDose (d : List (Nat × DVHData)) : Nat :=
  d.foldl (fun m p => updateMaxDose m p.2) 0

/-- The header row: the three fixed columns followed by
`str(i) + 'cGy'` for `i in range(0, max_roi_dose + 1, 10)`. -/
def csvHeader (d : List (Nat × DVHData)) : List String :=
  ["Patient ID", "ROI", "Volume (mL)"] ++
    (List.range (maxRoiDose d / 10 + 1)).map (fun k => toString (10 * k) ++ "cGy")

/-- One ROI's `dvh_roi_list`: patient id, ROI name, volume, then the
sampled relative-volume values. -/
def dvhRow (patient_id : String) (dvh : DVHData) : List Cell :=
  [Cell.str patient_id, Cell.str dvh.name, Cell.num dvh.volume] ++
    (sampledIndices dvh.relative_volume.counts.length).map
      (fun i => Cell.num (dvh.relative_volume.counts.getD i 0))

/-- Round half-to-even to an integer (the rounding used by pandas
`round`). -/
def roundHalfEven (q : ℚ) : ℤ :=
  if q - ⌊q⌋ = 1 / 2 then (if ⌊q⌋ % 2 = 0 then ⌊q⌋ else ⌊q⌋ + 1)
  else round q

/-- Round to two decimal digits, as `DataFrame.round(2)` does per
numeric cell. -/
def round2 (q : ℚ) : ℚ :=
  (roundHalfEven (100 * q) : ℚ) / 100

/-- `round(2)` on one cell: numeric cells are rounded, strings are left
alone. -/
def roundCell : Cell → Cell
  | Cell.num q => Cell.num (round2 q)
  | c => c

/-- What pandas does to one data row of width at most `w`: round every
cell, then pad to width `w` with the NaN cells that `fillna(0.0)`
turns into `0.0`. -/
def padFillRow (w : Nat) (r : List Cell) : List Cell :=
  r.map roundCell ++ List.replicate (w - r.length) (Cell.num 0)

/-- `dvh2csv`, up to the file write: build the header and the row list,
then apply the DataFrame construction.  pandas raises `ValueError` when
some row is longer than the column list. -/
def dvh2csv (d : List (Nat × DVHData)) (patient_id : String) :
    Except PyError (List String × List (List Cell)) :=
  if (d.map (fun p => dvhRow patient_id p.2)).all
      (fun r => r.length ≤ (csvHeader d).length) then
    Except.ok (csvHeader d,
      (d.map (fun p => dvhRow patient_id p.2)).map
        (padFillRow (csvHeader d).length))
  else
    Except.error PyError.valueError

/-- The largest index at which a length-`L` counts array is sampled
(the spec's "maximum sampled index" of one ROI): the greatest multiple
of 10 below `L`, and 0 when nothing is sampled. -/
def maxSampledIdx (L : Nat) : Nat :=
  if L = 0 then 0 else 10 * ((L - 1) / 10)

/-- Stated from the spec's words for comparison with the code's running
maximum: the global maximum sampled index, an explicit reduction over
all ROIs of the collection. -/
def globalMaxSampledIdx (d : List (Nat × DVHData)) : Nat :=
  (d.map (fun p => maxSampledIdx p.2.relative_volume.counts.length)).foldl
    max 0

/-- A cell holds a value rounded to two decimal digits: numeric cells
are integer multiples of `1/100`, strings carry no number. -/
def cellRounded : Cell → Prop
  | Cell.num q => (100 * q).den = 1
  | Cell.str _ => True

/-! ## Heap model of the Normalizer

To settle the frame property — `converge_to_zero_dvh` never mutates its
input arrays — the Normalizer is re-embedded against an explicit store
of numpy arrays.  Histograms hold references (indices) into the store;
reading an array leaves the store unchanged and `np.concatenate` /
`np.array` allocate fresh arrays at fresh indices, exactly as numpy
does (none of the operations in the source writes into an existing
array).  The per-ROI body either passes the input references through
(the `counts[-1] == 0` branch aliases, it does not copy) or allocates
two new arrays and returns references to them. -/

/-- A store of numpy arrays; an array reference is an index into
`arrays`. -/
structure Store where
  arrays : List (List ℚ)
deriving Repr, DecidableEq

/-- A histogram as a pair of array references into a store. -/
structure HistRef where
  bincenters : Nat
  counts : Nat
deriving Repr, DecidableEq

/-- Read the array behind a reference (an invalid reference is an
`IndexError`). -/
def Store.read (s : Store) (i : Nat) : Except PyError (List ℚ) :=
  match s.arrays.get? i with
  | some a => Except.ok a
  | none => Except.error PyError.indexError

/-- Allocate a fresh array: the store grows at the end, existing
entries are untouched. -/
def Store.alloc (s : Store) (a : List ℚ) : Store × Nat :=
  (⟨s.arrays ++ [a]⟩, s.arrays.length)

/-- The Normalizer's per-ROI body over the store. -/
def convergeHistStore (s : Store) (h : HistRef) :
    Except PyError (Store × HistRef) :=
  match s.read h.counts with
  | Except.error e => Except.error e
  | Except.ok cts =>
      match lastElem cts with
      | Except.error e => Except.error e
      | Except.ok c =>
          if c ≠ 0 then
            match s.read h.bincenters with
            | Except.error e => Except.error e
            | Except.ok bcs =>
                match lastElem bcs with
                | Except.error e => Except.error e
                | Except.ok b =>
                    let p1 := s.alloc (bcs ++ [b, b + 1, b + 2])
                    let p2 := p1.1.alloc (cts ++ [0, 0, 0])
                    Except.ok (p2.1, ⟨p1.2, p2.2⟩)
          else
            Except.ok (s, h)

/-- `converge_to_zero_dvh` over the store: thread the store through the
per-ROI loop while building the fresh result dictionary. -/
def convergeStore (s : Store) :
    List (Nat × HistRef) → Except PyError (Store × List (Nat × HistRef))
  | [] => Except.ok (s, [])
  | (roi, h) :: rest =>
      match convergeHistStore s h with
      | Except.error e => Except.error e
      | Except.ok p =>
          match convergeStore p.1 rest with
          | Except.error e => Except.error e
          | Except.ok q => Except.ok (q.1, (roi, p.2) :: q.2)

/-! ## Lemmas about the Normalizer -/

/-- On a non-empty counts array ending in a non-zero value (and a
non-empty bincenters array), the per-ROI body extends by the three bin
centers `b, b + 1, b + 2` (`b` the last existing center) and three zero
counts. -/
lemma convergeHist_extend (dvh : Histogram) (c b : ℚ)
    (hc : dvh.counts.getLast? = some c) (hcne : c ≠ 0)
    (hb : dvh.bincenters.getLast? = some b) :
    convergeHist dvh = Except.ok
      { bincenters := dvh.bincenters ++ [b, b + 1, b + 2],
        counts := dvh.counts ++ [0, 0, 0] } := by
  simp [convergeHist, lastElem, hc, hb, hcne]

/-- A histogram whose counts already end in zero passes through
unchanged. -/
lemma convergeHist_last_zero (dvh : Histogram)
    (h : dvh.counts.getLast? = some 0) :
    convergeHist dvh = Except.ok dvh := by
  simp [convergeHist, lastElem, h]

/-- A successful per-ROI body implies the input counts were
non-empty. -/
lemma convergeHist_ok_counts_ne_nil {dvh : Histogram} {out : Histogram}
    (h : convergeHist dvh = Except.ok out) : dvh.counts ≠ [] := by
  intro hnil
  simp [convergeHist, lastElem, hnil] at h

/-- The only error the per-ROI body raises is `IndexError`. -/
lemma convergeHist_error {dvh : Histogram} {e : PyError}
    (h : convergeHist dvh = Except.error e) : e = PyError.indexError := by
  unfold convergeHist lastElem at h
  cases hc : dvh.counts.getLast? with
  | none => simp [hc] at h; exact h.symm
  | some c =>
      simp [hc] at h
      by_cases hz : c = 0
      · simp [hz] at h
      · simp [hz] at h
        cases hb : dvh.bincenters.getLast? with
        | none => simp [hb] at h; exact h.symm
        | some b => simp [hb] at h

/-- A non-empty counts array with as many bincenters yields a
successful per-ROI body whose output ends in a zero count and keeps the
two arrays the same length. -/
lemma convergeHist_ok_inv (dvh : Histogram) (hne : dvh.counts ≠ [])
    (hlen : dvh.bincenters.length = dvh.counts.length) :
    ∃ out, convergeHist dvh = Except.ok out ∧
      out.counts.getLast? = some 0 ∧
      out.bincenters.length = out.counts.length := by
  cases hc : dvh.counts.getLast? with
  | none => exact absurd (List.getLast?_eq_none_iff.mp hc) hne
  | some c =>
      by_cases hz : c = 0
      · subst hz
        exact ⟨dvh, convergeHist_last_zero dvh hc, hc, hlen⟩
      · have hbne : dvh.bincenters ≠ [] := by
          intro hnil
          rw [hnil] at hlen
          exact hne (List.eq_nil_of_length_eq_zero hlen.symm)
        cases hb : dvh.bincenters.getLast? with
        | none => exact absurd (List.getLast?_eq_none_iff.mp hb) hbne
        | some b =>
            refine ⟨_, convergeHist_extend dvh c b hc hz hb, ?_, ?_⟩
            · rw [List.getLast?_append_of_ne_nil _ (by simp)]; rfl
            · simp [hlen]

/-- A non-empty histogram yields a successful per-ROI body whose output
ends in a zero count. -/
lemma convergeHist_ok_last_zero (dvh : Histogram) (hne : dvh.counts ≠ [])
    (hbne : dvh.bincenters ≠ []) :
    ∃ out, convergeHist dvh = Except.ok out ∧
      out.counts.getLast? = some 0 := by
  cases hc : dvh.counts.getLast? with
  | none => exact absurd (List.getLast?_eq_none_iff.mp hc) hne
  | some c =>
      by_cases hz : c = 0
      · subst hz
        exact ⟨dvh, convergeHist_last_zero dvh hc, hc⟩
      · cases hb : dvh.bincenters.getLast? with
        | none => exact absurd (List.getLast?_eq_none_iff.mp hb) hbne
        | some b =>
            refine ⟨_, convergeHist_extend dvh c b hc hz hb, ?_⟩
            rw [List.getLast?_append_of_ne_nil _ (by simp)]; rfl

/-- C1 counterexample: on `bincenters=[0,10], counts=[2,1]` the
Normalizer does not produce `bincenters=[0,10,11,12,13]` — the loop
`dvh.bincenters[-1]+i for i in range(3)` starts at `i = 0`, so the
first appended center repeats the last existing one. -/
theorem C1_counterexample :
    converge_to_zero_dvh [(2, ⟨[0, 10], [2, 1]⟩)]
      ≠ Except.ok [(2, ⟨[0, 10, 11, 12, 13], [2, 1, 0, 0, 0]⟩)] := by
  norm_num [converge_to_zero_dvh, convergeHist, lastElem]

/-- C1 (amended): for every histogram whose last count is non-zero, the
Normalizer appends exactly three new bin centers with values
`last_center + 0`, `last_center + 1`, `last_center + 2` and exactly
three zero counts; in particular `bincenters=[0,10], counts=[2,1]` is
extended to `bincenters=[0,10,10,11,12], counts=[2,1,0,0,0]`. -/
theorem C1_extension (dvh : Histogram) (c b : ℚ)
    (hc : dvh.counts.getLast? = some c) (hcne : c ≠ 0)
    (hb : dvh.bincenters.getLast? = some b) :
    convergeHist dvh = Except.ok
      { bincenters := dvh.bincenters ++ [b, b + 1, b + 2],
        counts := dvh.counts ++ [0, 0, 0] } :=
  convergeHist_extend dvh c b hc hcne hb

/-- C1 witness: the amended extension at the spec's scenario input
`bincenters=[0,10], counts=[2,1]`. -/
theorem C1_extension_witness :
    (([2, 1] : List ℚ).getLast? = some 1 ∧ (1 : ℚ) ≠ 0 ∧
      ([0, 10] : List ℚ).getLast? = some 10) ∧
    convergeHist ⟨[0, 10], [2, 1]⟩ = Except.ok
      { bincenters := [0, 10] ++ [10, 10 + 1, 10 + 2],
        counts := [2, 1] ++ [0, 0, 0] } := by
  refine ⟨⟨by simp, by norm_num, by simp⟩, ?_⟩
  exact C1_extension ⟨[0, 10], [2, 1]⟩ 1 10 (by simp) (by norm_num) (by simp)

/-- C3: whenever every input histogram has non-empty counts and as many
bincenters as counts, the Normalizer succeeds and every output
histogram ends in a zero count and keeps `len(bincenters) ==
len(counts)`. -/
theorem C3_normalizer_invariant (d : List (Nat × Histogram))
    (h : ∀ p ∈ d, p.2.counts ≠ [] ∧
      p.2.bincenters.length = p.2.counts.length) :
    ∃ out, converge_to_zero_dvh d = Except.ok out ∧
      ∀ q ∈ out, q.2.counts.getLast? = some 0 ∧
        q.2.bincenters.length = q.2.counts.length := by
  induction d with
  | nil => exact ⟨[], rfl, by simp⟩
  | cons p rest ih =>
      obtain ⟨roi, dvh⟩ := p
      obtain ⟨hne, hlen⟩ := h (roi, dvh) (List.mem_cons_self _ _)
      obtain ⟨h1, hh1, hz1, hl1⟩ := convergeHist_ok_inv dvh hne hlen
      obtain ⟨outr, hr, hinv⟩ := ih (fun q hq => h q (List.mem_cons_of_mem _ hq))
      refine ⟨(roi, h1) :: outr, ?_, ?_⟩
      · simp [converge_to_zero_dvh, hh1, hr]
      · intro q hq
        rcases List.mem_cons.mp hq with rfl | hmem
        · exact ⟨hz1, hl1⟩
        · exact hinv q hmem

/-- C3 witness: the invariant at the spec's two-ROI scenario. -/
theorem C3_normalizer_invariant_witness :
    (∀ p ∈ ([(1, ⟨[0, 10, 20], [5, 3, 0]⟩), (2, ⟨[0, 10], [2, 1]⟩)] :
        List (Nat × Histogram)),
      p.2.counts ≠ [] ∧ p.2.bincenters.length = p.2.counts.length) ∧
    ∃ out, converge_to_zero_dvh
        [(1, ⟨[0, 10, 20], [5, 3, 0]⟩), (2, ⟨[0, 10], [2, 1]⟩)] =
        Except.ok out ∧
      ∀ q ∈ out, q.2.counts.getLast? = some 0 ∧
        q.2.bincenters.length = q.2.counts.length := by
  refine ⟨by simp, ?_⟩
  exact C3_normalizer_invariant _ (by simp)

/-- C4: the Normalizer is idempotent — on a collection of non-empty
histograms it succeeds, and running it again on its own output returns
that output unchanged. -/
theorem C4_normalizer_idempotent (d : List (Nat × Histogram))
    (h : ∀ p ∈ d, p.2.counts ≠ [] ∧ p.2.bincenters ≠ []) :
    ∃ out, converge_to_zero_dvh d = Except.ok out ∧
      converge_to_zero_dvh out = Except.ok out := by
  induction d with
  | nil => exact ⟨[], rfl, rfl⟩
  | cons p rest ih =>
      obtain ⟨roi, dvh⟩ := p
      obtain ⟨hne, hbne⟩ := h (roi, dvh) (List.mem_cons_self _ _)
      obtain ⟨h1, hh1, hz1⟩ := convergeHist_ok_last_zero dvh hne hbne
      obtain ⟨outr, hr, hr2⟩ := ih (fun q hq => h q (List.mem_cons_of_mem _ hq))
      refine ⟨(roi, h1) :: outr, ?_, ?_⟩
      · simp [converge_to_zero_dvh, hh1, hr]
      · simp [converge_to_zero_dvh, convergeHist_last_zero h1 hz1, hr2]

/-- C4 witness: idempotence at the spec's two-ROI scenario. -/
theorem C4_normalizer_idempotent_witness :
    (∀ p ∈ ([(1, ⟨[0, 10, 20], [5, 3, 0]⟩), (2, ⟨[0, 10], [2, 1]⟩)] :
        List (Nat × Histogram)),
      p.2.counts ≠ [] ∧ p.2.bincenters ≠ []) ∧
    ∃ out, converge_to_zero_dvh
        [(1, ⟨[0, 10, 20], [5, 3, 0]⟩), (2, ⟨[0, 10], [2, 1]⟩)] =
        Except.ok out ∧
      converge_to_zero_dvh out = Except.ok out := by
  refine ⟨by simp, ?_⟩
  exact C4_normalizer_idempotent _ (by simp)

/-- C7 counterexample: a zero-length counts array makes the Normalizer
raise `IndexError` from `dvh.counts[-1]`, not the
`MalformedHistogramError` the claim names (no code in the module raises
such an error). -/
theorem C7_counterexample :
    converge_to_zero_dvh [(1, ⟨[], []⟩)] = Except.error PyError.indexError ∧
    converge_to_zero_dvh [(1, ⟨[], []⟩)] ≠
      Except.error PyError.malformedHistogramError := by
  constructor
  · norm_num [converge_to_zero_dvh, convergeHist, lastElem]
  · norm_num [converge_to_zero_dvh, convergeHist, lastElem]
    decide

/-- C7 (amended): if any histogram in the collection has a zero-length
counts sequence, the Normalizer raises `IndexError` (out-of-range
indexing), not a dedicated `MalformedHistogramError`. -/
theorem C7_empty_counts_index_error (d : List (Nat × Histogram))
    (h : ∃ p ∈ d, p.2.counts = []) :
    converge_to_zero_dvh d = Except.error PyError.indexError := by
  induction d with
  | nil => simp at h
  | cons p rest ih =>
      obtain ⟨roi, dvh⟩ := p
      cases hc : convergeHist dvh with
      | error e =>
          have he := convergeHist_error hc
          subst he
          simp [converge_to_zero_dvh, hc]
      | ok h1 =>
          have hne := convergeHist_ok_counts_ne_nil hc
          obtain ⟨q, hq, hqe⟩ := h
          rcases List.mem_cons.mp hq with rfl | hmem
          · exact absurd hqe hne
          · simp [converge_to_zero_dvh, hc, ih ⟨q, hmem, hqe⟩]

/-- C7 witness: the amended error behaviour at a one-ROI collection
holding an empty histogram. -/
theorem C7_empty_counts_index_error_witness :
    (∃ p ∈ ([(1, ⟨[], []⟩)] : List (Nat × Histogram)), p.2.counts = []) ∧
    converge_to_zero_dvh [(1, ⟨[], []⟩)] = Except.error PyError.indexError := by
  refine ⟨⟨(1, ⟨[], []⟩), by simp, rfl⟩, ?_⟩
  exact C7_empty_counts_index_error _ ⟨(1, ⟨[], []⟩), by simp, rfl⟩

/-! ## Lemmas about Python dictionaries -/

/-- Lookup after insert: the inserted key maps to the new value, every
other key is untouched. -/
lemma dictLookup_insert {α : Type} (d : List (Nat × α)) (k k' : Nat) (v : α) :
    dictLookup (dictInsert d k v) k' =
      if k = k' then some v else dictLookup d k' := by
  induction d with
  | nil =>
      by_cases h : k = k' <;> simp [dictInsert, dictLookup, h]
  | cons p t ih =>
      obtain ⟨a, b⟩ := p
      by_cases hak : a = k
      · subst hak
        by_cases hkk : a = k' <;> simp [dictInsert, dictLookup, hkk]
      · by_cases hak' : a = k'
        · subst hak'
          simp [dictInsert, dictLookup, hak, Ne.symm hak]
        · simp [dictInsert, dictLookup, hak, hak', ih]

/-- A key is absent exactly when lookup returns `none`. -/
lemma dictLookup_eq_none_iff {α : Type} (d : List (Nat × α)) (k : Nat) :
    dictLookup d k = none ↔ k ∉ d.map Prod.fst := by
  induction d with
  | nil => simp [dictLookup]
  | cons p t ih =>
      obtain ⟨a, b⟩ := p
      by_cases h : a = k <;> simp [dictLookup, h, ih, Ne.symm, eq_comm]

/-- Inserting an absent key appends it to the key list. -/
lemma dictInsert_keys_of_absent {α : Type} (d : List (Nat × α)) (k : Nat)
    (v : α) (h : dictLookup d k = none) :
    (dictInsert d k v).map Prod.fst = d.map Prod.fst ++ [k] := by
  induction d with
  | nil => simp [dictInsert]
  | cons p t ih =>
      obtain ⟨a, b⟩ := p
      by_cases hak : a = k
      · simp [dictLookup, hak] at h
      · simp [dictLookup, hak] at h
        simp [dictInsert, hak, ih h]

/-- Overwriting a present key leaves the key list unchanged. -/
lemma dictInsert_keys_of_present {α : Type} (d : List (Nat × α)) (k : Nat)
    (v : α) (h : dictLookup d k ≠ none) :
    (dictInsert d k v).map Prod.fst = d.map Prod.fst := by
  induction d with
  | nil => simp [dictLookup] at h
  | cons p t ih =>
      obtain ⟨a, b⟩ := p
      by_cases hak : a = k
      · simp [dictInsert, hak]
      · simp [dictLookup, hak] at h
        simp [dictInsert, hak, ih h]

/-- Insertion preserves distinctness of the keys. -/
lemma dictInsert_keys_nodup {α : Type} (d : List (Nat × α)) (k : Nat)
    (v : α) (h : (d.map Prod.fst).Nodup) :
    ((dictInsert d k v).map Prod.fst).Nodup := by
  by_cases hl : dictLookup d k = none
  · rw [dictInsert_keys_of_absent d k v hl]
    have : k ∉ d.map Prod.fst := (dictLookup_eq_none_iff d k).mp hl
    simp [List.nodup_append, h, this]
  · rw [dictInsert_keys_of_present d k v hl]
    exact h

/-- Aggregation lookup: after folding the worker results over any
starting dictionary, a key collected at least once maps to its computed
histogram; other keys keep their old binding. -/
lemma calc_dvhs_foldl_lookup (compute : Nat → Histogram)
    (arrival : List Nat) (d : List (Nat × Histogram)) (k : Nat) :
    dictLookup
      (arrival.foldl (fun d roi => dictInsert d roi (compute roi)) d) k =
      if k ∈ arrival then some (compute k) else dictLookup d k := by
  induction arrival generalizing d with
  | nil => simp
  | cons x rest ih =>
      simp only [List.foldl_cons]
      rw [ih]
      by_cases hm : k ∈ rest
      · simp [hm]
      · by_cases hx : x = k
        · subst hx
          simp [hm, dictLookup_insert]
        · have hkx : ¬k = x := fun h => hx h.symm
          simp [hm, hx, hkx, dictLookup_insert, List.mem_cons]

/-- Aggregation keys: folding distinct, previously-absent ROI ids over
a dictionary appends exactly those ids to the key list. -/
lemma calc_dvhs_foldl_keys (compute : Nat → Histogram)
    (arrival : List Nat) (d : List (Nat × Histogram))
    (hnd : arrival.Nodup) (habs : ∀ k ∈ arrival, dictLookup d k = none) :
    ((arrival.foldl (fun d roi => dictInsert d roi (compute roi)) d).map
      Prod.fst) = d.map Prod.fst ++ arrival := by
  induction arrival generalizing d with
  | nil => simp
  | cons x rest ih =>
      simp only [List.foldl_cons]
      have hx : dictLookup d x = none := habs x (List.mem_cons_self _ _)
      have hnd' := (List.nodup_cons.mp hnd).2
      have hxr := (List.nodup_cons.mp hnd).1
      have habs' : ∀ k ∈ rest, dictLookup (dictInsert d x (compute x)) k = none := by
        intro k hk
        rw [dictLookup_insert]
        have : x ≠ k := fun h => hxr (h ▸ hk)
        simp [this, habs k (List.mem_cons_of_mem _ hk)]
      rw [ih _ hnd' habs', dictInsert_keys_of_absent d x (compute x) hx]
      simp

/-- C2: under fault-free deterministic computation, for every set of
requested ROI ids (`roi_list`, distinct as keys of `dict_roi`) and
whatever order the worker results arrive in, the mapping returned by
`calc_dvhs` has exactly one key per requested id: its key list is a
permutation of `roi_list`, has no duplicates, and has length N. -/
theorem C2_engine_key_set (compute : Nat → Histogram)
    (roi_list arrival : List Nat) (hnd : roi_list.Nodup)
    (hperm : arrival.Perm roi_list) :
    ((calc_dvhs compute arrival).map Prod.fst).Perm roi_list ∧
    ((calc_dvhs compute arrival).map Prod.fst).Nodup ∧
    (calc_dvhs compute arrival).length = roi_list.length := by
  have hand : arrival.Nodup := hperm.symm.nodup hnd
  have hkeys : (calc_dvhs compute arrival).map Prod.fst = arrival := by
    have h := calc_dvhs_foldl_keys compute arrival [] hand (by
      intro k _
      rfl)
    simpa [calc_dvhs] using h
  have hlen : (calc_dvhs compute arrival).length = arrival.length := by
    have h := congrArg List.length hkeys
    simpa using h
  refine ⟨?_, ?_, ?_⟩
  · rw [hkeys]; exact hperm
  · rw [hkeys]; exact hand
  · rw [hlen, hperm.length_eq]

/-- C2 witness: requested ids `[1, 2, 3]`, arrival order `[2, 3, 1]`. -/
theorem C2_engine_key_set_witness :
    (([1, 2, 3] : List Nat).Nodup ∧ ([2, 3, 1] : List Nat).Perm [1, 2, 3]) ∧
    (((calc_dvhs (fun n => ⟨[(n : ℚ)], [0]⟩) [2, 3, 1]).map Prod.fst).Perm
        [1, 2, 3] ∧
      ((calc_dvhs (fun n => ⟨[(n : ℚ)], [0]⟩) [2, 3, 1]).map Prod.fst).Nodup ∧
      (calc_dvhs (fun n => ⟨[(n : ℚ)], [0]⟩) [2, 3, 1]).length = 3) := by
  refine ⟨⟨by decide, by decide⟩, ?_⟩
  exact C2_engine_key_set (fun n => ⟨[(n : ℚ)], [0]⟩) [1, 2, 3] [2, 3, 1]
    (by decide) (by decide)

/-- C8: aggregation is order-independent — two arrival orders holding
the same ROI ids yield dictionaries with identical content: every key
looks up to the same histogram (present requested ids map to their
computed histogram, all other ids to nothing), for any deterministic
`compute`. -/
theorem C8_engine_order_independent (compute : Nat → Histogram)
    (a1 a2 : List Nat) (hperm : a1.Perm a2) :
    ∀ k, dictLookup (calc_dvhs compute a1) k =
      dictLookup (calc_dvhs compute a2) k := by
  intro k
  unfold calc_dvhs
  rw [calc_dvhs_foldl_lookup, calc_dvhs_foldl_lookup]
  by_cases hm : k ∈ a1
  · simp [hm, hperm.mem_iff.mp hm]
  · have hm2 : k ∉ a2 := fun h => hm (hperm.mem_iff.mpr h)
    simp [hm, hm2]

/-- C8 witness: the two orders `[1, 2]` and `[2, 1]`. -/
theorem C8_engine_order_independent_witness :
    (([1, 2] : List Nat).Perm [2, 1]) ∧
    ∀ k, dictLookup (calc_dvhs (fun n => ⟨[(n : ℚ)], [0]⟩) [1, 2]) k =
      dictLookup (calc_dvhs (fun n => ⟨[(n : ℚ)], [0]⟩) [2, 1]) k := by
  refine ⟨by decide, ?_⟩
  exact C8_engine_order_independent (fun n => ⟨[(n : ℚ)], [0]⟩) [1, 2] [2, 1]
    (by decide)

/-- Catalog lookup after the fold: the last sequence element carrying a
given ROI id determines its entry; ids never declared keep their old
binding. -/
lemma get_roi_info_foldl_lookup (ds : List StructureSetROI)
    (d : List (Nat × RoiInfo)) (k : Nat) :
    dictLookup
      (ds.foldl (fun d s => dictInsert d s.ROINumber (roiInfoOf s)) d) k =
      match ds.reverse.find? (fun s => s.ROINumber == k) with
      | some s => some (roiInfoOf s)
      | none => dictLookup d k := by
  induction ds generalizing d with
  | nil => simp
  | cons s rest ih =>
      simp only [List.foldl_cons, List.reverse_cons, List.find?_append]
      rw [ih]
      cases h : rest.reverse.find? (fun s => s.ROINumber == k) with
      | some t => simp [Option.or]
      | none =>
          by_cases hk : s.ROINumber = k
          · simp [Option.or, List.find?, hk, dictLookup_insert]
          · have hb : (s.ROINumber == k) = false := by simp [hk]
            simp [Option.or, List.find?, hb, dictLookup_insert, hk]

/-- Folding catalog insertions preserves distinctness of the keys. -/
lemma get_roi_info_foldl_keys_nodup (ds : List StructureSetROI)
    (d : List (Nat × RoiInfo)) (h : (d.map Prod.fst).Nodup) :
    (((ds.foldl (fun d s => dictInsert d s.ROINumber (roiInfoOf s)) d)).map
      Prod.fst).Nodup := by
  induction ds generalizing d with
  | nil => exact h
  | cons s rest ih =>
      exact ih _ (dictInsert_keys_nodup _ _ _ h)

/-- C9: the ROI catalog maps each declared ROI id to the
`{uid, name, algorithm}` triple of the **last** sequence element
carrying that id (last-wins on duplicates); its ids are distinct, and
an id has an entry exactly when some sequence element declares it. -/
theorem C9_roi_catalog (ds : List StructureSetROI) :
    (∀ k, dictLookup (get_roi_info ds) k =
      (ds.reverse.find? (fun s => s.ROINumber == k)).map roiInfoOf) ∧
    ((get_roi_info ds).map Prod.fst).Nodup ∧
    (∀ k, k ∈ (get_roi_info ds).map Prod.fst ↔
      ∃ s ∈ ds, s.ROINumber = k) := by
  have hlook : ∀ k, dictLookup (get_roi_info ds) k =
      (ds.reverse.find? (fun s => s.ROINumber == k)).map roiInfoOf := by
    intro k
    rw [get_roi_info, get_roi_info_foldl_lookup]
    cases h : ds.reverse.find? (fun s => s.ROINumber == k) <;>
      simp [dictLookup]
  refine ⟨hlook, get_roi_info_foldl_keys_nodup ds [] (by simp), ?_⟩
  intro k
  have hmem : k ∈ (get_roi_info ds).map Prod.fst ↔
      dictLookup (get_roi_info ds) k ≠ none := by
    constructor
    · intro h hn
      exact (dictLookup_eq_none_iff _ k).mp hn h
    · intro h
      by_contra hn
      exact h ((dictLookup_eq_none_iff _ k).mpr hn)
  rw [hmem, hlook]
  constructor
  · intro h
    cases hf : ds.reverse.find? (fun s => s.ROINumber == k) with
    | none => simp [hf] at h
    | some s =>
        have hs := List.find?_some hf
        have hsm := List.mem_reverse.mp (List.mem_of_find?_eq_some hf)
        exact ⟨s, hsm, by simpa using hs⟩
  · intro ⟨s, hsm, hsk⟩
    have : ∃ x ∈ ds.reverse, (x.ROINumber == k) = true :=
      ⟨s, List.mem_reverse.mpr hsm, by simp [hsk]⟩
    have hs := List.find?_isSome.mpr this
    cases hf : ds.reverse.find? (fun s => s.ROINumber == k) with
    | none => rw [hf] at hs; simp at hs
    | some t => simp [hf]

/-! ## Lemmas about the Exporter -/

/-- Growing the counts array by one adds a sampled index exactly at
multiples of 10. -/
lemma sampledIndices_succ (L : Nat) :
    sampledIndices (L + 1) =
      sampledIndices L ++ (if L % 10 = 0 then [L] else []) := by
  unfold sampledIndices
  rw [List.range_succ L, List.filter_append]
  congr 1
  by_cases h : L % 10 = 0 <;> simp [h]

/-- A length-`L` counts array yields `⌈L/10⌉` samples. -/
lemma sampledIndices_length (L : Nat) :
    (sampledIndices L).length = (L + 9) / 10 := by
  induction L with
  | zero => simp [sampledIndices]
  | succ n ih =>
      rw [sampledIndices_succ, List.length_append, ih]
      by_cases h : n % 10 = 0 <;> simp [h] <;> omega

/-- The running maximum over the sampled indices of one ROI is the
maximum of the initial value and that ROI's largest sampled index. -/
lemma sampledIndices_foldl_max (L : Nat) : ∀ m : Nat,
    (sampledIndices L).foldl max m = max m (maxSampledIdx L) := by
  induction L with
  | zero => intro m; simp [sampledIndices, maxSampledIdx]
  | succ n ih =>
      intro m
      rw [sampledIndices_succ, List.foldl_append, ih]
      by_cases h : n % 10 = 0
      · rw [if_pos h]
        simp only [List.foldl_cons, List.foldl_nil]
        by_cases h0 : n = 0
        · subst h0
          simp [maxSampledIdx]
        · rw [show maxSampledIdx n = 10 * ((n - 1) / 10) from if_neg h0,
            show maxSampledIdx (n + 1) = 10 * ((n + 1 - 1) / 10) from
              if_neg (Nat.succ_ne_zero n)]
          omega
      · rw [if_neg h]
        simp only [List.foldl_nil]
        have h0 : ¬n = 0 := by omega
        rw [show maxSampledIdx n = 10 * ((n - 1) / 10) from if_neg h0,
          show maxSampledIdx (n + 1) = 10 * ((n + 1 - 1) / 10) from
            if_neg (Nat.succ_ne_zero n)]
        omega

/-- The per-ROI `max_roi_dose` update is a plain `max` against the
ROI's largest sampled index. -/
lemma updateMaxDose_eq (m : Nat) (dvh : DVHData) :
    updateMaxDose m dvh =
      max m (maxSampledIdx dvh.relative_volume.counts.length) :=
  sampledIndices_foldl_max _ m

/-- The loop-carried `max_roi_dose` equals the explicit reduction over
the collection. -/
lemma maxRoiDose_foldl (d : List (Nat × DVHData)) : ∀ m : Nat,
    d.foldl (fun m p => updateMaxDose m p.2) m =
      (d.map (fun p => maxSampledIdx p.2.relative_volume.counts.length)).foldl
        max m := by
  induction d with
  | nil => intro m; rfl
  | cons p rest ih =>
      intro m
      simp only [List.foldl_cons, List.map_cons]
      rw [updateMaxDose_eq]
      exact ih _

/-- The code's running maximum equals the spec's global maximum sampled
index. -/
lemma maxRoiDose_eq (d : List (Nat × DVHData)) :
    maxRoiDose d = globalMaxSampledIdx d :=
  maxRoiDose_foldl d 0

/-- The initial value never exceeds a `max`-fold. -/
lemma init_le_foldl_max (l : List Nat) : ∀ m : Nat, m ≤ l.foldl max m := by
  induction l with
  | nil => intro m; exact Nat.le_refl m
  | cons a t ih =>
      intro m
      exact le_trans (Nat.le_max_left m a) (ih (max m a))

/-- Every element of a list is bounded by a `max`-fold over it. -/
lemma mem_le_foldl_max (l : List Nat) (x : Nat) (h : x ∈ l) :
    ∀ m : Nat, x ≤ l.foldl max m := by
  induction l with
  | nil => simp at h
  | cons a t ih =>
      intro m
      rcases List.mem_cons.mp h with rfl | hm
      · exact le_trans (Nat.le_max_right m x) (init_le_foldl_max t _)
      · exact ih hm _

/-- Every ROI's largest sampled index is bounded by the collection's
`max_roi_dose`. -/
lemma le_maxRoiDose (d : List (Nat × DVHData)) (p : Nat × DVHData)
    (hp : p ∈ d) :
    maxSampledIdx p.2.relative_volume.counts.length ≤ maxRoiDose d := by
  rw [maxRoiDose_eq]
  unfold globalMaxSampledIdx
  exact mem_le_foldl_max
    (d.map (fun q => maxSampledIdx q.2.relative_volume.counts.length))
    (maxSampledIdx p.2.relative_volume.counts.length)
    (List.mem_map.mpr ⟨p, hp, rfl⟩) 0

/-- A data row is three leading cells plus one cell per sample. -/
lemma dvhRow_length (patient_id : String) (dvh : DVHData) :
    (dvhRow patient_id dvh).length =
      3 + (dvh.relative_volume.counts.length + 9) / 10 := by
  simp [dvhRow, sampledIndices_length]
  omega

/-- Header width: three fixed columns plus one dose column per
multiple of 10 up to `max_roi_dose`. -/
lemma csvHeader_length (d : List (Nat × DVHData)) :
    (csvHeader d).length = 3 + (maxRoiDose d / 10 + 1) := by
  simp [csvHeader]
  omega

/-- No data row is wider than the header. -/
lemma dvhRow_fits (d : List (Nat × DVHData)) (patient_id : String)
    (p : Nat × DVHData) (hp : p ∈ d) :
    (dvhRow patient_id p.2).length ≤ (csvHeader d).length := by
  rw [dvhRow_length, csvHeader_length]
  have h := le_maxRoiDose d p hp
  unfold maxSampledIdx at h
  split_ifs at h with hL <;> omega

/-- Rounding and padding a fitting row yields exactly the header
width. -/
lemma padFillRow_length (w : Nat) (r : List Cell) (h : r.length ≤ w) :
    (padFillRow w r).length = w := by
  simp only [padFillRow, List.length_append, List.length_map,
    List.length_replicate]
  omega

/-- `round(2)` leaves every cell a two-decimal value. -/
lemma cellRounded_roundCell (c : Cell) : cellRounded (roundCell c) := by
  cases c with
  | str s => simp [roundCell, cellRounded]
  | num q =>
      simp only [roundCell, cellRounded, round2]
      rw [mul_comm, div_mul_cancel₀ _ (by norm_num : (100 : ℚ) ≠ 0)]
      exact Rat.den_intCast _

/-- C5: for every non-empty collection, the header is exactly
`Patient ID`, `ROI`, `Volume (mL)` followed by one `<k>cGy` column per
multiple of 10 from 0 up to the global maximum sampled index
(inclusive), the maximum being taken over all ROIs' relative-volume
counts sampled at indices 0, 10, 20, ... -/
theorem C5_exporter_header (d : List (Nat × DVHData)) (hne : d ≠ []) :
    csvHeader d = ["Patient ID", "ROI", "Volume (mL)"] ++
      (List.range (globalMaxSampledIdx d / 10 + 1)).map
        (fun k => toString (10 * k) ++ "cGy") := by
  rw [csvHeader, maxRoiDose_eq]

/-- C5 witness: a single ROI whose relative-volume counts have length
25 yields exactly the dose columns `0cGy`, `10cGy`, `20cGy`. -/
theorem C5_exporter_header_witness :
    (([(1, ⟨"LUNG", 100, ⟨List.replicate 25 1⟩⟩)] :
        List (Nat × DVHData)) ≠ []) ∧
    csvHeader [(1, ⟨"LUNG", 100, ⟨List.replicate 25 1⟩⟩)] =
      ["Patient ID", "ROI", "Volume (mL)", "0cGy", "10cGy", "20cGy"] := by
  refine ⟨by simp, ?_⟩
  rw [C5_exporter_header _ (by simp)]
  rfl

/-- C6: the Exporter never raises the pandas width error, every emitted
row has exactly the header's number of columns, every cell is a filled
value rounded to two decimal digits, and the cells a short row cannot
supply are exactly the value `0.0`. -/
theorem C6_exporter_rectangular (d : List (Nat × DVHData))
    (patient_id : String) :
    ∃ header rows, dvh2csv d patient_id = Except.ok (header, rows) ∧
      (∀ r ∈ rows, r.length = header.length) ∧
      (∀ r ∈ rows, ∀ c ∈ r, cellRounded c) ∧
      (∀ p ∈ d, ∀ i, (dvhRow patient_id p.2).length ≤ i →
        i < (csvHeader d).length →
        (padFillRow (csvHeader d).length (dvhRow patient_id p.2)).getD i
          (Cell.str "") = Cell.num 0) := by
  have hfit : ∀ p ∈ d,
      (dvhRow patient_id p.2).length ≤ (csvHeader d).length :=
    fun p hp => dvhRow_fits d patient_id p hp
  refine ⟨csvHeader d,
    (d.map (fun p => dvhRow patient_id p.2)).map
      (padFillRow (csvHeader d).length), ?_, ?_, ?_, ?_⟩
  · rw [dvh2csv, if_pos]
    rw [List.all_eq_true]
    intro r hr
    obtain ⟨p, hp, rfl⟩ := List.mem_map.mp hr
    exact decide_eq_true (hfit p hp)
  · intro r hr
    obtain ⟨r0, hr0, rfl⟩ := List.mem_map.mp hr
    obtain ⟨p, hp, rfl⟩ := List.mem_map.mp hr0
    exact padFillRow_length _ _ (hfit p hp)
  · intro r hr c hc
    obtain ⟨r0, hr0, rfl⟩ := List.mem_map.mp hr
    simp only [padFillRow] at hc
    rcases List.mem_append.mp hc with h | h
    · obtain ⟨c0, hc0, rfl⟩ := List.mem_map.mp h
      exact cellRounded_roundCell c0
    · rw [List.eq_of_mem_replicate h]
      simp [cellRounded]
  · intro p hp i hi hiw
    unfold padFillRow
    rw [List.getD_append_right _ _ _ _ (by simpa using hi)]
    have hlt : i - (List.map roundCell (dvhRow patient_id p.2)).length <
        (csvHeader d).length - (dvhRow patient_id p.2).length := by
      simp only [List.length_map]
      omega
    simp only [List.length_map] at hlt ⊢
    simp [List.getD, List.getElem?_replicate, hlt]

/-! ## Lemmas about the heap model -/

/-- The per-ROI body only ever appends to the store. -/
lemma convergeHistStore_extends {s : Store} {h : HistRef} {s1 : Store}
    {h1 : HistRef} (hc : convergeHistStore s h = Except.ok (s1, h1)) :
    ∃ t, s1.arrays = s.arrays ++ t := by
  unfold convergeHistStore at hc
  cases hr : s.read h.counts with
  | error e => simp [hr] at hc
  | ok cts =>
      simp only [hr] at hc
      cases hl : lastElem cts with
      | error e => simp [hl] at hc
      | ok c =>
          simp only [hl] at hc
          by_cases hz : c = 0
          · simp [hz] at hc
            exact ⟨[], by simp [hc.1.symm]⟩
          · simp [hz] at hc
            cases hb : s.read h.bincenters with
            | error e => simp [hb] at hc
            | ok bcs =>
                simp only [hb] at hc
                cases hlb : lastElem bcs with
                | error e => simp [hlb] at hc
                | ok b =>
                    simp [hlb, Store.alloc] at hc
                    refine ⟨[bcs ++ [b, b + 1, b + 2], cts ++ [0, 0, 0]], ?_⟩
                    rw [← hc.1]

/-- The whole Normalizer run only ever appends to the store. -/
lemma convergeStore_extends (coll : List (Nat × HistRef)) :
    ∀ (s s' : Store) (out : List (Nat × HistRef)),
    convergeStore s coll = Except.ok (s', out) →
    ∃ t, s'.arrays = s.arrays ++ t := by
  induction coll with
  | nil =>
      intro s s' out h
      simp [convergeStore] at h
      exact ⟨[], by simp [h.1.symm]⟩
  | cons p rest ih =>
      intro s s' out h
      obtain ⟨roi, hr⟩ := p
      unfold convergeStore at h
      cases hc : convergeHistStore s hr with
      | error e => simp [hc] at h
      | ok q =>
          simp only [hc] at h
          cases hrec : convergeStore q.1 rest with
          | error e => simp [hrec] at h
          | ok w =>
              simp only [hrec] at h
              simp at h
              obtain ⟨t1, ht1⟩ := convergeHistStore_extends hc
              obtain ⟨t2, ht2⟩ := ih q.1 w.1 w.2 (by rw [hrec])
              refine ⟨t1 ++ t2, ?_⟩
              rw [← h.1, ht2, ht1]
              simp

/-- The Normalizer's output dictionary is a fresh dictionary carrying
the same ROI keys in the same order as the input. -/
lemma convergeStore_keys (coll : List (Nat × HistRef)) :
    ∀ (s s' : Store) (out : List (Nat × HistRef)),
    convergeStore s coll = Except.ok (s', out) →
    out.map Prod.fst = coll.map Prod.fst := by
  induction coll with
  | nil =>
      intro s s' out h
      simp [convergeStore] at h
      simp [h.2.symm]
  | cons p rest ih =>
      intro s s' out h
      obtain ⟨roi, hr⟩ := p
      unfold convergeStore at h
      cases hc : convergeHistStore s hr with
      | error e => simp [hc] at h
      | ok q =>
          simp only [hc] at h
          cases hrec : convergeStore q.1 rest with
          | error e => simp [hrec] at h
          | ok w =>
              simp only [hrec] at h
              simp at h
              rw [← h.2]
              simp [ih q.1 w.1 w.2 (by rw [hrec])]

/-- C10: the Normalizer never mutates its input — after a successful
run over the store, every array the input histograms reference is
unchanged (the extension allocated fresh arrays instead), and the
returned dictionary is a freshly built one mirroring the input keys. -/
theorem C10_normalizer_no_mutation (s : Store) (coll : List (Nat × HistRef))
    (s' : Store) (out : List (Nat × HistRef))
    (h : convergeStore s coll = Except.ok (s', out)) :
    (∀ i, i < s.arrays.length → s'.arrays.get? i = s.arrays.get? i) ∧
    out.map Prod.fst = coll.map Prod.fst := by
  refine ⟨?_, convergeStore_keys coll s s' out h⟩
  intro i hi
  obtain ⟨t, ht⟩ := convergeStore_extends coll s s' out h
  rw [ht]
  exact List.get?_append hi

/-- C10 witness: the run on a store holding `bincenters=[0,10]`,
`counts=[2,1]` extends the store by two fresh arrays and leaves the two
input arrays untouched. -/
theorem C10_normalizer_no_mutation_witness :
    (convergeStore ⟨[[0, 10], [2, 1]]⟩ [(2, ⟨0, 1⟩)] =
      Except.ok (⟨[[0, 10], [2, 1], [0, 10, 10, 11, 12], [2, 1, 0, 0, 0]]⟩,
        [(2, ⟨2, 3⟩)])) ∧
    ((∀ i, i < (⟨[[0, 10], [2, 1]]⟩ : Store).arrays.length →
        (⟨[[0, 10], [2, 1], [0, 10, 10, 11, 12],
            [2, 1, 0, 0, 0]]⟩ : Store).arrays.get? i =
          (⟨[[0, 10], [2, 1]]⟩ : Store).arrays.get? i) ∧
      ([(2, (⟨2, 3⟩ : HistRef))].map Prod.fst =
        [(2, (⟨0, 1⟩ : HistRef))].map Prod.fst)) := by
  have hrun : convergeStore ⟨[[0, 10], [2, 1]]⟩ [(2, ⟨0, 1⟩)] =
      Except.ok (⟨[[0, 10], [2, 1], [0, 10, 10, 11, 12], [2, 1, 0, 0, 0]]⟩,
        [(2, ⟨2, 3⟩)]) := by
    norm_num [convergeStore, convergeHistStore, Store.read, Store.alloc,
      lastElem]
  exact ⟨hrun, C10_normalizer_no_mutation _ _ _ _ hrun⟩
